import Mathlib

/-!
Verification of the SAFE (Sponge API for Field Elements) framework of the
dusk-network/safe repository.

The io-pattern types, `validate_io_pattern`, `tag_input` (src/lib.rs) and the
encryption layer `io_pattern`, `prepare_sponge`, `encrypt`, `decrypt`
(src/encryption.rs) are translated directly from the Rust source.  Machine
integers (`u32`, `u64`) are modelled as `Nat` with explicit reduction
`% 2 ^ 32` (resp. a big-endian byte split) exactly where the Rust code
performs wrapping conversions or wrapping additions.

The final revision of the sponge engine itself (`Safe` trait, `Sponge` with
`absorb`/`squeeze`/`finish` and zeroization) is re-exported by lib.rs and
called by encryption.rs but its source file is not part of the source tree
(the tree carries an obsolete early revision of sponge.rs that lacks `Safe`,
`finish`, `output` and the zeroization); those definitions are therefore
modelled from the specification, as flagged in their doc comments.
-/

set_option maxRecDepth 4096

/-- Error enum, translated from src/error.rs. -/
inductive Error where
  | IOPatternViolation
  | InvalidIOPattern
  | TooFewInputElements
  | EncryptionFailed
  | DecryptionFailed
deriving DecidableEq, Repr

/-- Call enum from src/lib.rs: the calls making up an io-pattern.
Lengths are `usize` in Rust, modelled as `Nat`. -/
inductive Call where
  | Absorb (len : Nat)
  | Squeeze (len : Nat)
deriving DecidableEq, Repr

/-- `Call::call_len` from src/lib.rs. -/
def Call.call_len : Call → Nat
  | Call.Absorb len => len
  | Call.Squeeze len => len

/-- `validate_io_pattern` from src/lib.rs: the io-pattern must start with a
call to absorb, end with a call to squeeze, and no call may have length 0. -/
def validate_io_pattern (iopattern : List Call) : Except Error Unit :=
  match iopattern.head?, iopattern.getLast? with
  | some (Call.Absorb _), some (Call.Squeeze _) =>
    if iopattern.any (fun call => call.call_len == 0) then
      Except.error Error.InvalidIOPattern
    else
      Except.ok ()
  | _, _ => Except.error Error.InvalidIOPattern

/-- `ABSORB_MASK` constant from `tag_input` in src/lib.rs. -/
def ABSORB_MASK : Nat := 0x80000000

/-- One step of the encoding loop of `tag_input` (src/lib.rs).  The
accumulator is kept in reverse order, so the head of `acc` is the most
recently encoded `u32` word (`&mut input_u32[l - 1]` in the source).  The
`u32` casts and additions of the source wrap, hence the `% 2 ^ 32`. -/
def pushCall (acc : List Nat) (call : Call) : List Nat :=
  match acc, call with
  | prev :: rest, Call.Absorb len =>
    if prev &&& ABSORB_MASK ≠ 0 then
      ((prev + len % 2 ^ 32) % 2 ^ 32) :: rest
    else
      ((ABSORB_MASK + len % 2 ^ 32) % 2 ^ 32) :: prev :: rest
  | prev :: rest, Call.Squeeze len =>
    if prev &&& ABSORB_MASK = 0 then
      ((prev + len % 2 ^ 32) % 2 ^ 32) :: rest
    else
      (len % 2 ^ 32) :: prev :: rest
  | [], _ => []

/-- `u32::to_be_bytes`: big-endian byte decomposition of a 32-bit word. -/
def u32_be_bytes (w : Nat) : List Nat :=
  [w / 2 ^ 24 % 2 ^ 8, w / 2 ^ 16 % 2 ^ 8, w / 2 ^ 8 % 2 ^ 8, w % 2 ^ 8]

/-- `u64::to_be_bytes`: big-endian byte decomposition of a 64-bit word. -/
def u64_be_bytes (d : Nat) : List Nat :=
  [d / 2 ^ 56 % 2 ^ 8, d / 2 ^ 48 % 2 ^ 8, d / 2 ^ 40 % 2 ^ 8,
   d / 2 ^ 32 % 2 ^ 8, d / 2 ^ 24 % 2 ^ 8, d / 2 ^ 16 % 2 ^ 8,
   d / 2 ^ 8 % 2 ^ 8, d % 2 ^ 8]

/-- `tag_input` from src/lib.rs: validate the io-pattern, encode the calls
into `u32` words (aggregating runs of equal-kind calls in place, seeded with
`ABSORB_MASK`), convert to big-endian bytes and append the domain separator
as 8 big-endian bytes. -/
def tag_input (iopattern : List Call) (domain_sep : Nat) :
    Except Error (List Nat) :=
  match validate_io_pattern iopattern with
  | Except.error e => Except.error e
  | Except.ok _ =>
    let input_u32 := (iopattern.foldl pushCall [ABSORB_MASK]).reverse
    Except.ok (input_u32.flatMap u32_be_bytes ++ u64_be_bytes domain_sep)

/-- Aggregation of an io-pattern, written from the words of the spec:
merge runs of consecutive same-kind calls by summing their lengths
(`[A(1), A(1), S(1)] ≡ [A(2), S(1)]`).  Lengths are summed as unbounded
naturals; this is the reference point against which the wrapping 32-bit
arithmetic of `tag_input` is compared. -/
def aggregate : List Call → List Call
  | [] => []
  | Call.Absorb n :: rest =>
    match aggregate rest with
    | Call.Absorb m :: r => Call.Absorb (n + m) :: r
    | Call.Squeeze m :: r => Call.Absorb n :: Call.Squeeze m :: r
    | [] => [Call.Absorb n]
  | Call.Squeeze n :: rest =>
    match aggregate rest with
    | Call.Squeeze m :: r => Call.Squeeze (n + m) :: r
    | Call.Absorb m :: r => Call.Squeeze n :: Call.Absorb m :: r
    | [] => [Call.Squeeze n]

/-- The `u32` word which `tag_input` produces for one aggregated call whose
run length stayed below `2 ^ 31`. -/
def encodeWord : Call → Nat
  | Call.Absorb n => 2 ^ 31 + n
  | Call.Squeeze n => n

/-- The 32-bit word encoding in the words of the spec:
`Absorb(n) → 0x80000000 | n`, `Squeeze(n) → n`. -/
def specEncodeWord : Call → Nat
  | Call.Absorb n => 0x80000000 ||| n
  | Call.Squeeze n => n

example : tag_input [Call.Absorb 11, Call.Squeeze 2] 42 =
    Except.ok [0x80, 0, 0, 0x0B, 0, 0, 0, 2, 0, 0, 0, 0, 0, 0, 0, 0x2A] := by
  rfl

example : aggregate [Call.Absorb 1, Call.Absorb 1, Call.Squeeze 1] =
    [Call.Absorb 2, Call.Squeeze 1] := by rfl

/-- Modelled from the spec: the Permutation/Encryption Capability (the final
`Safe` + `Encryption` traits re-exported by lib.rs and required by
encryption.rs, whose defining source file is missing from the tree).
`permute`, `tag`, `add` are the Permutation Capability (spec 4.1); `subtract`
and `is_equal` the Encryption Capability (spec 4.6).  A native (non
circuit-building) capability is deterministic, so the methods are pure
functions here. -/
structure EncCap (T : Type) (W : Nat) where
  permute : List T → List T
  tag : List Nat → T
  add : T → T → T
  subtract : T → T → T
  is_equal : T → T → Bool

/-- Modelled from the spec: the `Sponge` owned state (spec 3, Data Model),
as used by encryption.rs (`sponge.safe`, `sponge.output`, positional
counters, io-pattern, domain separator).  The state array `[T; W]` is a list
of length `W`. -/
structure Sponge (T : Type) (W : Nat) where
  safe : EncCap T W
  state : List T
  pos_absorb : Nat
  pos_squeeze : Nat
  io_count : Nat
  iopattern : List Call
  domain_sep : Nat
  output : List T

/-- `CAPACITY = 1` (spec 3). -/
def capacity : Nat := 1

/-- `RATE = W - 1` (spec 3). -/
def rate (W : Nat) : Nat := W - 1

/-- Modelled from the spec: full zeroization on an error path — `state`,
both positional counters and the accumulated `output` are overwritten with
the default element (spec 5, Secure erasure). -/
def eraseAll {T : Type} [Inhabited T] {W : Nat} (sp : Sponge T W) :
    Sponge T W :=
  { sp with
    state := List.replicate W default
    pos_absorb := 0
    pos_squeeze := 0
    output := [] }

/-- Modelled from the spec: zeroization at a successful `finish` — `state`
and the positional counters are overwritten, the output was already handed
to the caller (spec 4.4.4). -/
def eraseState {T : Type} [Inhabited T] {W : Nat} (sp : Sponge T W) :
    Sponge T W :=
  { sp with
    state := List.replicate W default
    pos_absorb := 0
    pos_squeeze := 0 }

/-- Modelled from the spec (4.4.2, Effect): absorb one element — permute
first when `pos_absorb` has reached the rate, then add the element into the
state slot `pos_absorb + CAPACITY`. -/
def absorbElement {T : Type} [Inhabited T] {W : Nat} (sp : Sponge T W)
    (element : T) : Sponge T W :=
  let sp :=
    if sp.pos_absorb = rate W then
      { sp with state := sp.safe.permute sp.state, pos_absorb := 0 }
    else sp
  let i := sp.pos_absorb + capacity
  { sp with
    state := sp.state.set i (sp.safe.add (sp.state.getD i default) element)
    pos_absorb := sp.pos_absorb + 1 }

/-- The absorb loop over the `len` input elements (spec 4.4.2). -/
def absorbList {T : Type} [Inhabited T] {W : Nat} (sp : Sponge T W)
    (input : List T) : Sponge T W :=
  input.foldl absorbElement sp

/-- Modelled from the spec (4.4.2): `absorb(len, input)`.  Checks, in order:
the input slice holds at least `len` elements (else `TooFewInputElements`),
and the current io-pattern position is `Absorb(len)` (else
`IOPatternViolation`); on error the sponge is zeroized.  On success the
input elements are absorbed, `pos_squeeze` is forced to the rate and the
io-counter advances. -/
def absorb {T : Type} [Inhabited T] {W : Nat} (sp : Sponge T W) (len : Nat)
    (input : List T) : Sponge T W × Except Error Unit :=
  if input.length < len then
    (eraseAll sp, Except.error Error.TooFewInputElements)
  else
    match sp.iopattern.get? sp.io_count with
    | some (Call.Absorb l) =>
      if l = len then
        let sp := absorbList sp (input.take len)
        ({ sp with pos_squeeze := rate W, io_count := sp.io_count + 1 },
          Except.ok ())
      else (eraseAll sp, Except.error Error.IOPatternViolation)
    | _ => (eraseAll sp, Except.error Error.IOPatternViolation)

/-- Modelled from the spec (4.4.3, Effect): squeeze one element — permute
first when `pos_squeeze` has reached the rate (also resetting
`pos_absorb`), then append state slot `pos_squeeze + CAPACITY` to the
output. -/
def squeezeElement {T : Type} [Inhabited T] {W : Nat} (sp : Sponge T W) :
    Sponge T W :=
  let sp :=
    if sp.pos_squeeze = rate W then
      { sp with
        state := sp.safe.permute sp.state
        pos_squeeze := 0
        pos_absorb := 0 }
    else sp
  { sp with
    output := sp.output ++ [sp.state.getD (sp.pos_squeeze + capacity) default]
    pos_squeeze := sp.pos_squeeze + 1 }

/-- The squeeze loop producing `len` output elements (spec 4.4.3). -/
def squeezeList {T : Type} [Inhabited T] {W : Nat} :
    Sponge T W → Nat → Sponge T W
  | sp, 0 => sp
  | sp, Nat.succ n => squeezeList (squeezeElement sp) n

/-- Modelled from the spec (4.4.3): `squeeze(len)`.  The current io-pattern
position must be `Squeeze(len)` (else `IOPatternViolation` with the sponge
zeroized); on success `len` elements are appended to the accumulated output
and the io-counter advances. -/
def squeeze {T : Type} [Inhabited T] {W : Nat} (sp : Sponge T W)
    (len : Nat) : Sponge T W × Except Error Unit :=
  match sp.iopattern.get? sp.io_count with
  | some (Call.Squeeze l) =>
    if l = len then
      let sp := squeezeList sp len
      ({ sp with io_count := sp.io_count + 1 }, Except.ok ())
    else (eraseAll sp, Except.error Error.IOPatternViolation)
  | _ => (eraseAll sp, Except.error Error.IOPatternViolation)

/-- Modelled from the spec (4.4.4): `finish` succeeds with the accumulated
output iff the io-pattern has been exhausted; state and counters are
zeroized in either case, the output additionally on the error path. -/
def finish {T : Type} [Inhabited T] {W : Nat} (sp : Sponge T W) :
    Sponge T W × Except Error (List T) :=
  if sp.io_count = sp.iopattern.length then
    (eraseState sp, Except.ok sp.output)
  else
    (eraseAll sp, Except.error Error.IOPatternViolation)

/-- Modelled from the spec (4.4.1): `Sponge::start` builds the tag input
from the io-pattern and domain separator (propagating the
`InvalidIOPattern` error of `tag_input`), hashes it into the tag via the
capability, and initializes `state[0]` with the tag, the rest of the state
with defaults and all counters with zero. -/
def start {T : Type} [Inhabited T] {W : Nat} (cap : EncCap T W)
    (iopattern : List Call) (domain_sep : Nat) :
    Except Error (Sponge T W) :=
  match tag_input iopattern domain_sep with
  | Except.error e => Except.error e
  | Except.ok bytes =>
    Except.ok
      { safe := cap
        state := cap.tag bytes :: List.replicate (W - 1) default
        pos_absorb := 0
        pos_squeeze := 0
        io_count := 0
        iopattern := iopattern
        domain_sep := domain_sep
        output := [] }

/-- `io_pattern` from src/encryption.rs: the canonical five-call encryption
pattern. -/
def io_pattern (message_len : Nat) : List Call :=
  [Call.Absorb 2, Call.Absorb 1, Call.Squeeze message_len,
   Call.Absorb message_len, Call.Squeeze 1]

/-- `prepare_sponge` from src/encryption.rs: start the sponge on the
canonical pattern, absorb the shared secret (2 elements) and the nonce,
then squeeze `message_len` keystream elements.  Each fallible step
propagates its error (`?` in the source). -/
def prepare_sponge {T : Type} [Inhabited T] {W : Nat} (cap : EncCap T W)
    (domain_sep : Nat) (message_len : Nat) (shared_secret : T × T)
    (nonce : T) : Except Error (Sponge T W) :=
  match start cap (io_pattern message_len) domain_sep with
  | Except.error e => Except.error e
  | Except.ok sponge =>
    match absorb sponge 2 [shared_secret.1, shared_secret.2] with
    | (_, Except.error e) => Except.error e
    | (sponge, Except.ok _) =>
      match absorb sponge 1 [nonce] with
      | (_, Except.error e) => Except.error e
      | (sponge, Except.ok _) =>
        match squeeze sponge message_len with
        | (_, Except.error e) => Except.error e
        | (sponge, Except.ok _) => Except.ok sponge

/-- The cipher construction loop of `encrypt` (src/encryption.rs):
`cipher` starts as a copy of `sponge.output` and its first `message_len`
entries get the message added (`cipher[i] = add(&cipher[i], &message[i])`). -/
def addMessage {T : Type} {W : Nat} (cap : EncCap T W) (output : List T)
    (message : List T) : List T :=
  List.zipWith cap.add (output.take message.length) message
    ++ output.drop message.length

/-- `encrypt` from src/encryption.rs. -/
def encrypt {T : Type} [Inhabited T] {W : Nat} (cap : EncCap T W)
    (domain_sep : Nat) (message : List T) (shared_secret : T × T)
    (nonce : T) : Except Error (List T) :=
  let message_len := message.length
  match prepare_sponge cap domain_sep message_len shared_secret nonce with
  | Except.error e => Except.error e
  | Except.ok sponge =>
    match absorb sponge message_len message with
    | (_, Except.error e) => Except.error e
    | (sponge, Except.ok _) =>
      match squeeze sponge 1 with
      | (_, Except.error e) => Except.error e
      | (sponge, Except.ok _) =>
        let cipher := addMessage sponge.safe sponge.output message
        if cipher.length ≠ message_len + 1 then
          Except.error Error.EncryptionFailed
        else
          match finish sponge with
          | (_, Except.ok _) => Except.ok cipher
          | (_, Except.error e) => Except.error e

/-- The message reconstruction loop of `decrypt` (src/encryption.rs):
`message` starts as a copy of `sponge.output` and its first `message_len`
entries become `subtract(&cipher[i], &message[i])`. -/
def subtractKeystream {T : Type} {W : Nat} (cap : EncCap T W)
    (cipher : List T) (output : List T) (message_len : Nat) : List T :=
  List.zipWith cap.subtract (cipher.take message_len)
      (output.take message_len)
    ++ output.drop message_len

/-- `decrypt` from src/encryption.rs.  The source computes
`message_len = cipher.len() - 1` on `usize` without checking that the
cipher is non-empty; the `none` branch models that unchecked underflow
(a panic in checked builds), which is why the result is an `Option`. -/
def decrypt {T : Type} [Inhabited T] {W : Nat} (cap : EncCap T W)
    (domain_sep : Nat) (cipher : List T) (shared_secret : T × T)
    (nonce : T) : Option (Except Error (List T)) :=
  match cipher.length with
  | 0 => none
  | Nat.succ message_len =>
    some (
      match prepare_sponge cap domain_sep message_len shared_secret nonce with
      | Except.error e => Except.error e
      | Except.ok sponge =>
        let message := subtractKeystream sponge.safe cipher sponge.output
          message_len
        match absorb sponge message_len message with
        | (_, Except.error e) => Except.error e
        | (sponge, Except.ok _) =>
          match squeeze sponge 1 with
          | (_, Except.error e) => Except.error e
          | (sponge, Except.ok _) =>
            let s := sponge.output.getD message_len default
            if ¬ sponge.safe.is_equal s (cipher.getD message_len default) then
              Except.error Error.DecryptionFailed
            else if cipher.length ≠ message_len + 1 then
              Except.error Error.DecryptionFailed
            else
              match finish sponge with
              | (_, Except.ok _) => Except.ok message
              | (_, Except.error e) => Except.error e)

theorem land_mask_high {x : Nat} (h1 : 2 ^ 31 ≤ x) (h2 : x < 2 ^ 32) :
    x &&& ABSORB_MASK ≠ 0 := by
  have hm : ABSORB_MASK = 2 ^ 31 := by norm_num [ABSORB_MASK]
  rw [hm, Nat.and_two_pow]
  have hb : x.testBit 31 = true := by
    rw [Nat.testBit_to_div_mod]
    simp only [decide_eq_true_eq]
    omega
  simp [hb]

theorem land_mask_low {x : Nat} (h : x < 2 ^ 31) : x &&& ABSORB_MASK = 0 := by
  have hm : ABSORB_MASK = 2 ^ 31 := by norm_num [ABSORB_MASK]
  rw [hm, Nat.and_two_pow]
  have hb : x.testBit 31 = false := Nat.testBit_lt_two_pow h
  simp [hb]

theorem agg_absorb_head (n : Nat) (p : List Call) :
    ∃ m r, aggregate (Call.Absorb n :: p) = Call.Absorb m :: r ∧ n ≤ m := by
  rcases hq : aggregate p with _ | ⟨c, r⟩
  · exact ⟨n, [], by simp [aggregate, hq], Nat.le_refl n⟩
  · cases c with
    | Absorb m =>
      exact ⟨n + m, r, by simp [aggregate, hq], Nat.le_add_right n m⟩
    | Squeeze m =>
      exact ⟨n, Call.Squeeze m :: r, by simp [aggregate, hq], Nat.le_refl n⟩

theorem agg_squeeze_head (n : Nat) (p : List Call) :
    ∃ m r, aggregate (Call.Squeeze n :: p) = Call.Squeeze m :: r ∧ n ≤ m := by
  rcases hq : aggregate p with _ | ⟨c, r⟩
  · exact ⟨n, [], by simp [aggregate, hq], Nat.le_refl n⟩
  · cases c with
    | Absorb m =>
      exact ⟨n, Call.Absorb m :: r, by simp [aggregate, hq], Nat.le_refl n⟩
    | Squeeze m =>
      exact ⟨n + m, r, by simp [aggregate, hq], Nat.le_add_right n m⟩

theorem agg_absorb_absorb (a b : Nat) (p : List Call) :
    aggregate (Call.Absorb a :: Call.Absorb b :: p) =
      aggregate (Call.Absorb (a + b) :: p) := by
  rcases hq : aggregate p with _ | ⟨c, r⟩
  · simp [aggregate, hq]
  · cases c with
    | Absorb m => simp [aggregate, hq, Nat.add_assoc]
    | Squeeze m => simp [aggregate, hq]

theorem agg_squeeze_squeeze (a b : Nat) (p : List Call) :
    aggregate (Call.Squeeze a :: Call.Squeeze b :: p) =
      aggregate (Call.Squeeze (a + b) :: p) := by
  rcases hq : aggregate p with _ | ⟨c, r⟩
  · simp [aggregate, hq]
  · cases c with
    | Absorb m => simp [aggregate, hq]
    | Squeeze m => simp [aggregate, hq, Nat.add_assoc]

theorem agg_absorb_squeeze (a b : Nat) (p : List Call) :
    aggregate (Call.Absorb a :: Call.Squeeze b :: p) =
      Call.Absorb a :: aggregate (Call.Squeeze b :: p) := by
  rcases hq : aggregate p with _ | ⟨c, r⟩
  · simp [aggregate, hq]
  · cases c with
    | Absorb m => simp [aggregate, hq]
    | Squeeze m => simp [aggregate, hq]

theorem agg_squeeze_absorb (a b : Nat) (p : List Call) :
    aggregate (Call.Squeeze a :: Call.Absorb b :: p) =
      Call.Squeeze a :: aggregate (Call.Absorb b :: p) := by
  rcases hq : aggregate p with _ | ⟨c, r⟩
  · simp [aggregate, hq]
  · cases c with
    | Absorb m => simp [aggregate, hq]
    | Squeeze m => simp [aggregate, hq]

theorem foldl_pushCall_spec (p : List Call) :
    ∀ (c : Call) (rest : List Nat),
      (∀ x ∈ aggregate (c :: p), x.call_len < 2 ^ 31) →
      List.foldl pushCall (encodeWord c :: rest) p =
        ((aggregate (c :: p)).map encodeWord).reverse ++ rest := by
  induction p with
  | nil =>
    intro c rest _
    cases c <;> simp [aggregate, encodeWord]
  | cons c2 p ih =>
    intro c rest h
    cases c with
    | Absorb n =>
      cases c2 with
      | Absorb m =>
        have hmerge := agg_absorb_absorb n m p
        rw [hmerge] at h
        obtain ⟨k, r, hk, hle⟩ := agg_absorb_head (n + m) p
        have hkmem : Call.Absorb k ∈ aggregate (Call.Absorb (n + m) :: p) := by
          rw [hk]; exact List.mem_cons_self _ _
        have hkb := h _ hkmem
        simp only [Call.call_len] at hkb
        have hnm : n + m < 2 ^ 31 := by omega
        have hstep : pushCall (encodeWord (Call.Absorb n) :: rest)
            (Call.Absorb m) = encodeWord (Call.Absorb (n + m)) :: rest := by
          simp only [pushCall, encodeWord]
          rw [if_pos (land_mask_high (by omega) (by omega))]
          congr 1
          omega
        rw [List.foldl_cons, hstep, ih (Call.Absorb (n + m)) rest h, hmerge]
      | Squeeze m =>
        have hsplit := agg_absorb_squeeze n m p
        rw [hsplit] at h
        have hn := h (Call.Absorb n) (List.mem_cons_self _ _)
        simp only [Call.call_len] at hn
        have htail : ∀ x ∈ aggregate (Call.Squeeze m :: p),
            x.call_len < 2 ^ 31 :=
          fun x hx => h x (List.mem_cons_of_mem _ hx)
        obtain ⟨k, r, hk, hle⟩ := agg_squeeze_head m p
        have hkb := htail _ (by rw [hk]; exact List.mem_cons_self _ _)
        simp only [Call.call_len] at hkb
        have hm : m < 2 ^ 31 := by omega
        have hstep : pushCall (encodeWord (Call.Absorb n) :: rest)
            (Call.Squeeze m) =
            encodeWord (Call.Squeeze m) :: encodeWord (Call.Absorb n)
              :: rest := by
          simp only [pushCall, encodeWord]
          rw [if_neg (land_mask_high (by omega) (by omega))]
          congr 1
          omega
        rw [List.foldl_cons, hstep,
          ih (Call.Squeeze m) (encodeWord (Call.Absorb n) :: rest) htail,
          hsplit]
        simp [List.append_assoc]
    | Squeeze n =>
      cases c2 with
      | Squeeze m =>
        have hmerge := agg_squeeze_squeeze n m p
        rw [hmerge] at h
        obtain ⟨k, r, hk, hle⟩ := agg_squeeze_head (n + m) p
        have hkmem : Call.Squeeze k ∈ aggregate (Call.Squeeze (n + m) :: p) := by
          rw [hk]; exact List.mem_cons_self _ _
        have hkb := h _ hkmem
        simp only [Call.call_len] at hkb
        have hnm : n + m < 2 ^ 31 := by omega
        have hstep : pushCall (encodeWord (Call.Squeeze n) :: rest)
            (Call.Squeeze m) = encodeWord (Call.Squeeze (n + m)) :: rest := by
          simp only [pushCall, encodeWord]
          rw [if_pos (land_mask_low (by omega))]
          congr 1
          omega
        rw [List.foldl_cons, hstep, ih (Call.Squeeze (n + m)) rest h, hmerge]
      | Absorb m =>
        have hsplit := agg_squeeze_absorb n m p
        rw [hsplit] at h
        have hn := h (Call.Squeeze n) (List.mem_cons_self _ _)
        simp only [Call.call_len] at hn
        have htail : ∀ x ∈ aggregate (Call.Absorb m :: p),
            x.call_len < 2 ^ 31 :=
          fun x hx => h x (List.mem_cons_of_mem _ hx)
        obtain ⟨k, r, hk, hle⟩ := agg_absorb_head m p
        have hkb := htail _ (by rw [hk]; exact List.mem_cons_self _ _)
        simp only [Call.call_len] at hkb
        have hm : m < 2 ^ 31 := by omega
        have hstep : pushCall (encodeWord (Call.Squeeze n) :: rest)
            (Call.Absorb m) =
            encodeWord (Call.Absorb m) :: encodeWord (Call.Squeeze n)
              :: rest := by
          simp only [pushCall, encodeWord]
          rw [if_neg (not_not_intro (land_mask_low (by omega)))]
          congr 1
          simp only [ABSORB_MASK]
          omega
        rw [List.foldl_cons, hstep,
          ih (Call.Absorb m) (encodeWord (Call.Squeeze n) :: rest) htail,
          hsplit]
        simp [List.append_assoc]

theorem validate_ok_iff (p : List Call) :
    validate_io_pattern p = Except.ok () ↔
      ((∃ n, p.head? = some (Call.Absorb n)) ∧
       (∃ n, p.getLast? = some (Call.Squeeze n)) ∧
       ∀ c ∈ p, 0 < c.call_len) := by
  unfold validate_io_pattern
  rcases hh : p.head? with _ | c1
  · simp
  · rcases c1 with n1 | n1
    · rcases hl : p.getLast? with _ | c2
      · simp
      · rcases c2 with n2 | n2
        · simp
        · rcases hany : p.any (fun call => call.call_len == 0) with _ | _
          · simp only [Bool.false_eq_true, if_false]
            simp only [List.any_eq_false, beq_iff_eq] at hany
            constructor
            · intro _
              exact ⟨⟨n1, rfl⟩, ⟨n2, rfl⟩,
                fun c hc => Nat.pos_of_ne_zero (hany c hc)⟩
            · intro _
              trivial
          · simp only [if_true]
            simp only [List.any_eq_true, beq_iff_eq] at hany
            obtain ⟨c, hc, hc0⟩ := hany
            constructor
            · intro h
              cases h
            · intro h
              have := h.2.2 c hc
              omega
    · simp

theorem validate_error_invalid (p : List Call) (e : Error)
    (h : validate_io_pattern p = Except.error e) :
    e = Error.InvalidIOPattern := by
  unfold validate_io_pattern at h
  split at h
  · split at h
    · injection h with h
      exact h.symm
    · cases h
  · injection h with h
    exact h.symm

theorem tag_input_ok_of_validate (p : List Call) (d : Nat)
    (h : validate_io_pattern p = Except.ok ()) :
    ∃ bs, tag_input p d = Except.ok bs := by
  unfold tag_input
  rw [h]
  exact ⟨_, rfl⟩

theorem tag_input_error_of_validate (p : List Call) (d : Nat) (e : Error)
    (h : validate_io_pattern p = Except.error e) :
    tag_input p d = Except.error e := by
  unfold tag_input
  rw [h]

theorem tag_input_eq_aggregate (p : List Call) (d : Nat)
    (hv : validate_io_pattern p = Except.ok ())
    (hb : ∀ x ∈ aggregate p, x.call_len < 2 ^ 31) :
    tag_input p d =
      Except.ok (((aggregate p).map encodeWord).flatMap u32_be_bytes
        ++ u64_be_bytes d) := by
  rcases p with _ | ⟨c, p'⟩
  · simp [validate_io_pattern] at hv
  · rcases c with n | n
    · have hagg0 : aggregate (Call.Absorb 0 :: Call.Absorb n :: p') =
          aggregate (Call.Absorb n :: p') := by
        rw [agg_absorb_absorb]
        norm_num
      have hb' : ∀ x ∈ aggregate (Call.Absorb 0 :: Call.Absorb n :: p'),
          x.call_len < 2 ^ 31 := by
        rw [hagg0]
        exact hb
      have hfold := foldl_pushCall_spec (Call.Absorb n :: p')
        (Call.Absorb 0) [] hb'
      have hseed : (encodeWord (Call.Absorb 0) : Nat) = ABSORB_MASK := by
        norm_num [ABSORB_MASK, encodeWord]
      unfold tag_input
      rw [hv]
      simp only []
      rw [show ([ABSORB_MASK] : List Nat) = [encodeWord (Call.Absorb 0)] by
        rw [hseed]]
      rw [hfold, hagg0]
      simp
    · rw [validate_ok_iff] at hv
      obtain ⟨⟨m, hm⟩, _, _⟩ := hv
      simp at hm

theorem lor_two_pow_31 {n : Nat} (h : n < 2 ^ 31) :
    2 ^ 31 ||| n = 2 ^ 31 + n := by
  apply Nat.eq_of_testBit_eq
  intro i
  rw [Nat.testBit_lor]
  rcases Nat.lt_trichotomy i 31 with hi | hi | hi
  · have h2 : Nat.testBit (2 ^ 31) i = false := by
      rw [Nat.testBit_two_pow]
      simp only [decide_eq_false_iff_not]
      omega
    rw [h2, Bool.false_or]
    rw [Nat.testBit_to_div_mod, Nat.testBit_to_div_mod]
    have hsplit : (2 : Nat) ^ 31 = 2 ^ i * 2 ^ (31 - i) := by
      rw [← pow_add]
      congr 1
      omega
    have hpos : 0 < (2 : Nat) ^ i := Nat.pow_pos (by norm_num)
    have hdiv : (2 ^ 31 + n) / 2 ^ i = 2 ^ (31 - i) + n / 2 ^ i := by
      rw [hsplit, Nat.mul_add_div hpos]
    have heven : 2 ^ (31 - i) % 2 = 0 := by
      have h31 : 31 - i = (30 - i) + 1 := by omega
      rw [h31, pow_succ]
      simp [Nat.mul_mod_left]
    have harith : (2 ^ (31 - i) + n / 2 ^ i) % 2 = n / 2 ^ i % 2 := by
      omega
    rw [hdiv, harith]
  · subst hi
    simp only [Nat.testBit_two_pow, Nat.testBit_to_div_mod]
    simp
    omega
  · have hle : (2 : Nat) ^ 32 ≤ 2 ^ i :=
      Nat.pow_le_pow_right (by norm_num) (by omega)
    have hb1 : Nat.testBit (2 ^ 31) i = false := by
      rw [Nat.testBit_two_pow]
      simp only [decide_eq_false_iff_not]
      omega
    have hb2 : Nat.testBit n i = false :=
      Nat.testBit_lt_two_pow (by omega)
    have hb3 : Nat.testBit (2 ^ 31 + n) i = false :=
      Nat.testBit_lt_two_pow (by omega)
    rw [hb1, hb2, hb3]
    rfl

theorem specEncodeWord_eq_encodeWord (c : Call) (h : c.call_len < 2 ^ 31) :
    specEncodeWord c = encodeWord c := by
  cases c with
  | Absorb n =>
    simp only [Call.call_len] at h
    simp only [specEncodeWord, encodeWord]
    rw [show (0x80000000 : Nat) = 2 ^ 31 by norm_num]
    exact lor_two_pow_31 h
  | Squeeze n => rfl

/-- C2: for every pattern and every domain separator, `tag_input` returns
`Ok` iff the pattern is non-empty, its first call is `Absorb`, its last call
is `Squeeze`, and every call has positive length; in all other cases it
returns the error `InvalidIOPattern`. -/
theorem C2_tag_input_validation (p : List Call) (d : Nat) :
    ((p ≠ [] ∧ (∃ n, p.head? = some (Call.Absorb n)) ∧
        (∃ n, p.getLast? = some (Call.Squeeze n)) ∧
        ∀ c ∈ p, 0 < c.call_len) →
      ∃ bs, tag_input p d = Except.ok bs) ∧
    (¬ (p ≠ [] ∧ (∃ n, p.head? = some (Call.Absorb n)) ∧
        (∃ n, p.getLast? = some (Call.Squeeze n)) ∧
        ∀ c ∈ p, 0 < c.call_len) →
      tag_input p d = Except.error Error.InvalidIOPattern) := by
  constructor
  · rintro ⟨_, h1, h2, h3⟩
    exact tag_input_ok_of_validate p d ((validate_ok_iff p).2 ⟨h1, h2, h3⟩)
  · intro h
    rcases hv : validate_io_pattern p with e | u
    · rw [validate_error_invalid p e hv] at hv
      exact tag_input_error_of_validate p d _ hv
    · exfalso
      cases u
      obtain ⟨h1, h2, h3⟩ := (validate_ok_iff p).1 hv
      apply h
      refine ⟨?_, h1, h2, h3⟩
      intro hnil
      obtain ⟨n, hn⟩ := h1
      rw [hnil] at hn
      cases hn

/-- Witness for C2 at the pattern `[Absorb(1), Squeeze(1)]`. -/
theorem C2_tag_input_validation_witness :
    ∃ bs, tag_input [Call.Absorb 1, Call.Squeeze 1] 3 = Except.ok bs :=
  (C2_tag_input_validation [Call.Absorb 1, Call.Squeeze 1] 3).1
    ⟨by decide, ⟨1, rfl⟩, ⟨1, rfl⟩, by decide⟩

/-- C3 fails as stated: the two valid patterns
`[Absorb(2^31), Absorb(1), Squeeze(1)]` and `[Absorb(2^31 + 1), Squeeze(1)]`
have equal aggregations, yet the wrapping 32-bit additions of `tag_input`
let the first absorb run overflow into the flag bit in one grouping and not
in the other, so the produced byte strings differ. -/
theorem C3_counterexample :
    validate_io_pattern [Call.Absorb (2 ^ 31), Call.Absorb 1, Call.Squeeze 1]
        = Except.ok () ∧
    validate_io_pattern [Call.Absorb (2 ^ 31 + 1), Call.Squeeze 1]
        = Except.ok () ∧
    aggregate [Call.Absorb (2 ^ 31), Call.Absorb 1, Call.Squeeze 1] =
      aggregate [Call.Absorb (2 ^ 31 + 1), Call.Squeeze 1] ∧
    tag_input [Call.Absorb (2 ^ 31), Call.Absorb 1, Call.Squeeze 1] 42 =
      Except.ok [0, 0, 0, 0, 0x80, 0, 0, 1, 0, 0, 0, 1,
        0, 0, 0, 0, 0, 0, 0, 0x2A] ∧
    tag_input [Call.Absorb (2 ^ 31 + 1), Call.Squeeze 1] 42 =
      Except.ok [0, 0, 0, 2, 0, 0, 0, 0, 0, 0, 0, 0x2A] ∧
    ([0, 0, 0, 0, 0x80, 0, 0, 1, 0, 0, 0, 1,
        0, 0, 0, 0, 0, 0, 0, 0x2A] : List Nat) ≠
      [0, 0, 0, 2, 0, 0, 0, 0, 0, 0, 0, 0x2A] :=
  ⟨rfl, rfl, by decide, rfl, rfl, by decide⟩

/-- C3 (amended): two valid patterns with equal aggregations yield the same
`tag_input` bytes, provided no aggregated run length reaches `2^31` (the
absorb flag bit). -/
theorem C3_aggregation_equivalence (p1 p2 : List Call) (d : Nat)
    (h1 : validate_io_pattern p1 = Except.ok ())
    (h2 : validate_io_pattern p2 = Except.ok ())
    (hagg : aggregate p1 = aggregate p2)
    (hb : ∀ x ∈ aggregate p1, x.call_len < 2 ^ 31) :
    tag_input p1 d = tag_input p2 d := by
  rw [tag_input_eq_aggregate p1 d h1 hb,
    tag_input_eq_aggregate p2 d h2 (by rw [← hagg]; exact hb), hagg]

/-- Witness for C3 (amended): `[A(1), A(1), S(1)]` and `[A(2), S(1)]`. -/
theorem C3_aggregation_equivalence_witness :
    tag_input [Call.Absorb 1, Call.Absorb 1, Call.Squeeze 1] 42 =
      tag_input [Call.Absorb 2, Call.Squeeze 1] 42 :=
  C3_aggregation_equivalence
    [Call.Absorb 1, Call.Absorb 1, Call.Squeeze 1]
    [Call.Absorb 2, Call.Squeeze 1] 42 rfl rfl (by decide) (by decide)

/-- C4 fails as stated: for the valid pattern `[Absorb(2^31), Squeeze(1)]`
the word produced by `tag_input` for the aggregated absorb call is not
`0x8000_0000 | n` — the wrapping addition drops the flag bit and the
following squeeze call merges into the corrupted word. -/
theorem C4_counterexample :
    validate_io_pattern [Call.Absorb (2 ^ 31), Call.Squeeze 1] =
      Except.ok () ∧
    tag_input [Call.Absorb (2 ^ 31), Call.Squeeze 1] 0 =
      Except.ok [0, 0, 0, 1, 0, 0, 0, 0, 0, 0, 0, 0] ∧
    ((aggregate [Call.Absorb (2 ^ 31), Call.Squeeze 1]).map
          specEncodeWord).flatMap u32_be_bytes ++ u64_be_bytes 0 =
      [0x80, 0, 0, 0, 0, 0, 0, 1, 0, 0, 0, 0, 0, 0, 0, 0] ∧
    ([0, 0, 0, 1, 0, 0, 0, 0, 0, 0, 0, 0] : List Nat) ≠
      [0x80, 0, 0, 0, 0, 0, 0, 1, 0, 0, 0, 0, 0, 0, 0, 0] :=
  ⟨rfl, rfl, rfl, by decide⟩

/-- C4 (amended): for every valid pattern whose aggregated run lengths stay
below `2^31`, `tag_input` encodes each aggregated call as a big-endian
32-bit word (`Absorb(n)` as `0x8000_0000 | n`, `Squeeze(n)` as `n`)
followed by the domain separator as 8 big-endian bytes; in particular
`tag_input([Absorb(11), Squeeze(2)], 42)` is
`80 00 00 0B 00 00 00 02 00 00 00 00 00 00 00 2A`. -/
theorem C4_tag_encoding (p : List Call) (d : Nat)
    (hv : validate_io_pattern p = Except.ok ())
    (hb : ∀ x ∈ aggregate p, x.call_len < 2 ^ 31) :
    tag_input p d =
      Except.ok (((aggregate p).map specEncodeWord).flatMap u32_be_bytes
        ++ u64_be_bytes d) ∧
    tag_input [Call.Absorb 11, Call.Squeeze 2] 42 =
      Except.ok [0x80, 0, 0, 0x0B, 0, 0, 0, 2,
        0, 0, 0, 0, 0, 0, 0, 0x2A] := by
  constructor
  · rw [List.map_congr_left
      (fun x hx => specEncodeWord_eq_encodeWord x (hb x hx))]
    exact tag_input_eq_aggregate p d hv hb
  · rfl

/-- Witness for C4 (amended) at `[Absorb(11), Squeeze(2)]`, `d = 42`. -/
theorem C4_tag_encoding_witness :
    tag_input [Call.Absorb 11, Call.Squeeze 2] 42 =
      Except.ok (((aggregate [Call.Absorb 11, Call.Squeeze 2]).map
          specEncodeWord).flatMap u32_be_bytes ++ u64_be_bytes 42) :=
  (C4_tag_encoding [Call.Absorb 11, Call.Squeeze 2] 42 rfl (by decide)).1

/-- C10: `tag_input` casts call lengths to `u32` (mod `2^32`) and aggregates
with wrapping 32-bit additions, so a run reaching `2^31` overflows into the
absorb flag bit, and the two valid patterns `[Absorb(1), Squeeze(1)]` and
`[Absorb(2^32 + 1), Squeeze(1)]` — lengths differing by `2^32` — have
different aggregations but byte-for-byte identical tag inputs. -/
theorem C10_u32_cast_collision :
    validate_io_pattern [Call.Absorb 1, Call.Squeeze 1] = Except.ok () ∧
    validate_io_pattern [Call.Absorb (2 ^ 32 + 1), Call.Squeeze 1] =
      Except.ok () ∧
    aggregate [Call.Absorb 1, Call.Squeeze 1] ≠
      aggregate [Call.Absorb (2 ^ 32 + 1), Call.Squeeze 1] ∧
    tag_input [Call.Absorb 1, Call.Squeeze 1] 7 =
      tag_input [Call.Absorb (2 ^ 32 + 1), Call.Squeeze 1] 7 ∧
    tag_input [Call.Absorb (2 ^ 31), Call.Squeeze 1] 0 =
      Except.ok [0, 0, 0, 1, 0, 0, 0, 0, 0, 0, 0, 0] :=
  ⟨rfl, rfl, by decide, rfl, rfl⟩

theorem absorbElement_io_count {T : Type} [Inhabited T] {W : Nat}
    (sp : Sponge T W) (x : T) :
    (absorbElement sp x).io_count = sp.io_count := by
  simp only [absorbElement]
  split <;> rfl

theorem absorbElement_iopattern {T : Type} [Inhabited T] {W : Nat}
    (sp : Sponge T W) (x : T) :
    (absorbElement sp x).iopattern = sp.iopattern := by
  simp only [absorbElement]
  split <;> rfl

theorem absorbElement_output {T : Type} [Inhabited T] {W : Nat}
    (sp : Sponge T W) (x : T) :
    (absorbElement sp x).output = sp.output := by
  simp only [absorbElement]
  split <;> rfl

theorem absorbElement_safe {T : Type} [Inhabited T] {W : Nat}
    (sp : Sponge T W) (x : T) :
    (absorbElement sp x).safe = sp.safe := by
  simp only [absorbElement]
  split <;> rfl

theorem absorbList_io_count {T : Type} [Inhabited T] {W : Nat}
    (input : List T) : ∀ sp : Sponge T W,
    (absorbList sp input).io_count = sp.io_count := by
  induction input with
  | nil => intro sp; rfl
  | cons x xs ih =>
    intro sp
    show (absorbList (absorbElement sp x) xs).io_count = sp.io_count
    rw [ih, absorbElement_io_count]

theorem absorbList_iopattern {T : Type} [Inhabited T] {W : Nat}
    (input : List T) : ∀ sp : Sponge T W,
    (absorbList sp input).iopattern = sp.iopattern := by
  induction input with
  | nil => intro sp; rfl
  | cons x xs ih =>
    intro sp
    show (absorbList (absorbElement sp x) xs).iopattern = sp.iopattern
    rw [ih, absorbElement_iopattern]

theorem absorbList_output {T : Type} [Inhabited T] {W : Nat}
    (input : List T) : ∀ sp : Sponge T W,
    (absorbList sp input).output = sp.output := by
  induction input with
  | nil => intro sp; rfl
  | cons x xs ih =>
    intro sp
    show (absorbList (absorbElement sp x) xs).output = sp.output
    rw [ih, absorbElement_output]

theorem absorbList_safe {T : Type} [Inhabited T] {W : Nat}
    (input : List T) : ∀ sp : Sponge T W,
    (absorbList sp input).safe = sp.safe := by
  induction input with
  | nil => intro sp; rfl
  | cons x xs ih =>
    intro sp
    show (absorbList (absorbElement sp x) xs).safe = sp.safe
    rw [ih, absorbElement_safe]

theorem squeezeElement_io_count {T : Type} [Inhabited T] {W : Nat}
    (sp : Sponge T W) :
    (squeezeElement sp).io_count = sp.io_count := by
  simp only [squeezeElement]
  split <;> rfl

theorem squeezeElement_iopattern {T : Type} [Inhabited T] {W : Nat}
    (sp : Sponge T W) :
    (squeezeElement sp).iopattern = sp.iopattern := by
  simp only [squeezeElement]
  split <;> rfl

theorem squeezeElement_safe {T : Type} [Inhabited T] {W : Nat}
    (sp : Sponge T W) :
    (squeezeElement sp).safe = sp.safe := by
  simp only [squeezeElement]
  split <;> rfl

theorem squeezeElement_output {T : Type} [Inhabited T] {W : Nat}
    (sp : Sponge T W) :
    ∃ x, (squeezeElement sp).output = sp.output ++ [x] := by
  simp only [squeezeElement]
  split <;> exact ⟨_, rfl⟩

theorem squeezeList_io_count {T : Type} [Inhabited T] {W : Nat}
    (n : Nat) : ∀ sp : Sponge T W,
    (squeezeList sp n).io_count = sp.io_count := by
  induction n with
  | zero => intro sp; rfl
  | succ n ih =>
    intro sp
    show (squeezeList (squeezeElement sp) n).io_count = sp.io_count
    rw [ih, squeezeElement_io_count]

theorem squeezeList_iopattern {T : Type} [Inhabited T] {W : Nat}
    (n : Nat) : ∀ sp : Sponge T W,
    (squeezeList sp n).iopattern = sp.iopattern := by
  induction n with
  | zero => intro sp; rfl
  | succ n ih =>
    intro sp
    show (squeezeList (squeezeElement sp) n).iopattern = sp.iopattern
    rw [ih, squeezeElement_iopattern]

theorem squeezeList_safe {T : Type} [Inhabited T] {W : Nat}
    (n : Nat) : ∀ sp : Sponge T W,
    (squeezeList sp n).safe = sp.safe := by
  induction n with
  | zero => intro sp; rfl
  | succ n ih =>
    intro sp
    show (squeezeList (squeezeElement sp) n).safe = sp.safe
    rw [ih, squeezeElement_safe]

theorem squeezeList_output {T : Type} [Inhabited T] {W : Nat}
    (n : Nat) : ∀ sp : Sponge T W,
    ∃ tail, (squeezeList sp n).output = sp.output ++ tail ∧
      tail.length = n := by
  induction n with
  | zero => intro sp; exact ⟨[], by simp [squeezeList], rfl⟩
  | succ n ih =>
    intro sp
    obtain ⟨x, hx⟩ := squeezeElement_output sp
    obtain ⟨tail, htail, hlen⟩ := ih (squeezeElement sp)
    refine ⟨x :: tail, ?_, by simp [hlen]⟩
    show (squeezeList (squeezeElement sp) n).output = _
    rw [htail, hx]
    simp

theorem absorb_ok {T : Type} [Inhabited T] {W : Nat} (sp : Sponge T W)
    (len : Nat) (input : List T) (h1 : len ≤ input.length)
    (h2 : sp.iopattern.get? sp.io_count = some (Call.Absorb len)) :
    absorb sp len input =
      ({ absorbList sp (input.take len) with
          pos_squeeze := rate W
          io_count := (absorbList sp (input.take len)).io_count + 1 },
        Except.ok ()) := by
  unfold absorb
  rw [if_neg (by omega), h2]
  simp

theorem squeeze_ok {T : Type} [Inhabited T] {W : Nat} (sp : Sponge T W)
    (len : Nat)
    (h2 : sp.iopattern.get? sp.io_count = some (Call.Squeeze len)) :
    squeeze sp len =
      ({ squeezeList sp len with
          io_count := (squeezeList sp len).io_count + 1 },
        Except.ok ()) := by
  unfold squeeze
  rw [h2]
  simp

theorem finish_ok {T : Type} [Inhabited T] {W : Nat} (sp : Sponge T W)
    (h : sp.io_count = sp.iopattern.length) :
    finish sp = (eraseState sp, Except.ok sp.output) := by
  unfold finish
  rw [if_pos h]

/-- C7: `absorb` with an input slice shorter than `len` returns
`TooFewInputElements` (this check runs first, on every sponge state); and
with sufficient input every deviation from the declared pattern — wrong
call kind, wrong call length, or a call past the end of the pattern —
returns `IOPatternViolation`, as does every deviating `squeeze`. -/
theorem C7_pattern_enforcement_errors {T : Type} [Inhabited T] {W : Nat}
    (sp : Sponge T W) (len : Nat) (input : List T) :
    (input.length < len →
      (absorb sp len input).2 = Except.error Error.TooFewInputElements) ∧
    (len ≤ input.length →
      sp.iopattern.get? sp.io_count ≠ some (Call.Absorb len) →
      (absorb sp len input).2 = Except.error Error.IOPatternViolation) ∧
    (sp.iopattern.get? sp.io_count ≠ some (Call.Squeeze len) →
      (squeeze sp len).2 = Except.error Error.IOPatternViolation) := by
  refine ⟨?_, ?_, ?_⟩
  · intro h
    unfold absorb
    rw [if_pos h]
  · intro hlen hdev
    unfold absorb
    rw [if_neg (by omega)]
    rcases hc : sp.iopattern.get? sp.io_count with _ | c
    · rfl
    · cases c with
      | Absorb l =>
        rcases eq_or_ne l len with h | h
        · exact absurd (h ▸ hc) hdev
        · simp [if_neg h]
      | Squeeze l => rfl
  · intro hdev
    unfold squeeze
    rcases hc : sp.iopattern.get? sp.io_count with _ | c
    · rfl
    · cases c with
      | Absorb l => rfl
      | Squeeze l =>
        rcases eq_or_ne l len with h | h
        · exact absurd (h ▸ hc) hdev
        · simp [if_neg h]

/-- C8: on every error return of `absorb`, `squeeze` or `finish`, the
residual sponge has been zeroized before control returns: the state array
holds only default (zero) elements, both positional counters are 0, and the
accumulated output has been erased.  (The encryption wrappers return bare
errors carrying no sponge state.) -/
theorem C8_zeroize_on_error {T : Type} [Inhabited T] {W : Nat}
    (sp : Sponge T W) (len : Nat) (input : List T) (e : Error) :
    ((absorb sp len input).2 = Except.error e →
      (absorb sp len input).1.state = List.replicate W default ∧
      (absorb sp len input).1.pos_absorb = 0 ∧
      (absorb sp len input).1.pos_squeeze = 0 ∧
      (absorb sp len input).1.output = []) ∧
    ((squeeze sp len).2 = Except.error e →
      (squeeze sp len).1.state = List.replicate W default ∧
      (squeeze sp len).1.pos_absorb = 0 ∧
      (squeeze sp len).1.pos_squeeze = 0 ∧
      (squeeze sp len).1.output = []) ∧
    ((finish sp).2 = Except.error e →
      (finish sp).1.state = List.replicate W default ∧
      (finish sp).1.pos_absorb = 0 ∧
      (finish sp).1.pos_squeeze = 0 ∧
      (finish sp).1.output = []) := by
  refine ⟨?_, ?_, ?_⟩
  · unfold absorb
    split
    · intro _
      exact ⟨rfl, rfl, rfl, rfl⟩
    · split
      · split
        · intro h
          exact absurd h (by simp)
        · intro _
          exact ⟨rfl, rfl, rfl, rfl⟩
      · intro _
        exact ⟨rfl, rfl, rfl, rfl⟩
  · unfold squeeze
    split
    · split
      · intro h
        exact absurd h (by simp)
      · intro _
        exact ⟨rfl, rfl, rfl, rfl⟩
    · intro _
      exact ⟨rfl, rfl, rfl, rfl⟩
  · unfold finish
    split
    · intro h
      exact absurd h (by simp)
    · intro _
      exact ⟨rfl, rfl, rfl, rfl⟩

/-- Issue the declared calls of an io-pattern against a sponge, in order,
each with matching kind and the exact declared length (absorb calls are fed
`len` default elements — pattern enforcement never inspects the values).
Returns the final sponge and whether every call succeeded. -/
def runDeclared {T : Type} [Inhabited T] {W : Nat} (sp : Sponge T W) :
    List Call → Sponge T W × Bool
  | [] => (sp, true)
  | Call.Absorb n :: rest =>
    match absorb sp n (List.replicate n default) with
    | (sp', Except.ok _) => runDeclared sp' rest
    | (sp', Except.error _) => (sp', false)
  | Call.Squeeze n :: rest =>
    match squeeze sp n with
    | (sp', Except.ok _) => runDeclared sp' rest
    | (sp', Except.error _) => (sp', false)

theorem runDeclared_cons_absorb {T : Type} [Inhabited T] {W : Nat}
    (sp sp' : Sponge T W) (n : Nat) (rest : List Call)
    (h : absorb sp n (List.replicate n default) = (sp', Except.ok ())) :
    runDeclared sp (Call.Absorb n :: rest) = runDeclared sp' rest := by
  show (match absorb sp n (List.replicate n default) with
    | (sp', Except.ok _) => runDeclared sp' rest
    | (sp', Except.error _) => (sp', false)) = _
  rw [h]

theorem runDeclared_cons_squeeze {T : Type} [Inhabited T] {W : Nat}
    (sp sp' : Sponge T W) (n : Nat) (rest : List Call)
    (h : squeeze sp n = (sp', Except.ok ())) :
    runDeclared sp (Call.Squeeze n :: rest) = runDeclared sp' rest := by
  show (match squeeze sp n with
    | (sp', Except.ok _) => runDeclared sp' rest
    | (sp', Except.error _) => (sp', false)) = _
  rw [h]

theorem runDeclared_ok {T : Type} [Inhabited T] {W : Nat}
    (calls : List Call) :
    ∀ (pre : List Call) (sp : Sponge T W),
      sp.iopattern = pre ++ calls → sp.io_count = pre.length →
      (runDeclared sp calls).2 = true ∧
      (runDeclared sp calls).1.io_count =
        (runDeclared sp calls).1.iopattern.length ∧
      (runDeclared sp calls).1.iopattern = sp.iopattern := by
  induction calls with
  | nil =>
    intro pre sp h1 h2
    refine ⟨rfl, ?_, rfl⟩
    show sp.io_count = sp.iopattern.length
    rw [h1, h2]
    simp
  | cons c rest ih =>
    intro pre sp h1 h2
    have hget : sp.iopattern.get? sp.io_count = some c := by
      rw [h1, h2, List.get?_append_right (Nat.le_refl _)]
      simp
    cases c with
    | Absorb n =>
      have hok := absorb_ok sp n (List.replicate n default)
        (by simp) hget
      rw [runDeclared_cons_absorb sp _ n rest hok]
      have hpat : ({ absorbList sp ((List.replicate n default).take n) with
          pos_squeeze := rate W
          io_count :=
            (absorbList sp ((List.replicate n default).take n)).io_count
              + 1 } : Sponge T W).iopattern
          = (pre ++ [Call.Absorb n]) ++ rest := by
        show (absorbList sp ((List.replicate n default).take n)).iopattern = _
        rw [absorbList_iopattern, h1]
        simp
      have hcount : ({ absorbList sp ((List.replicate n default).take n) with
          pos_squeeze := rate W
          io_count :=
            (absorbList sp ((List.replicate n default).take n)).io_count
              + 1 } : Sponge T W).io_count
          = (pre ++ [Call.Absorb n]).length := by
        show (absorbList sp ((List.replicate n default).take n)).io_count + 1 = _
        rw [absorbList_io_count, h2]
        simp
      obtain ⟨g1, g2, g3⟩ := ih (pre ++ [Call.Absorb n]) _ hpat hcount
      refine ⟨g1, g2, ?_⟩
      rw [g3, hpat, h1]
      simp
    | Squeeze n =>
      have hok := squeeze_ok sp n hget
      rw [runDeclared_cons_squeeze sp _ n rest hok]
      have hpat : ({ squeezeList sp n with
          io_count := (squeezeList sp n).io_count + 1 } : Sponge T W).iopattern
          = (pre ++ [Call.Squeeze n]) ++ rest := by
        show (squeezeList sp n).iopattern = _
        rw [squeezeList_iopattern, h1]
        simp
      have hcount : ({ squeezeList sp n with
          io_count := (squeezeList sp n).io_count + 1 } : Sponge T W).io_count
          = (pre ++ [Call.Squeeze n]).length := by
        show (squeezeList sp n).io_count + 1 = _
        rw [squeezeList_io_count, h2]
        simp
      obtain ⟨g1, g2, g3⟩ := ih (pre ++ [Call.Squeeze n]) _ hpat hcount
      refine ⟨g1, g2, ?_⟩
      rw [g3, hpat, h1]
      simp

/-- C5: a sponge started on a valid io-pattern accepts exactly the declared
calls: issuing them in order, each with matching kind and exact declared
length — including adjacent same-kind calls that aggregation would merge —
all succeed, and `finish` afterwards returns `Ok`.  (Aggregation only feeds
the derived tag; the started sponge stores and enforces the unaggregated
pattern.) -/
theorem C5_declared_calls_accepted {T : Type} [Inhabited T] {W : Nat}
    (cap : EncCap T W) (pat : List Call) (d : Nat) (hW : 2 ≤ W)
    (hv : validate_io_pattern pat = Except.ok ()) :
    ∃ sp, start cap pat d = Except.ok sp ∧
      (runDeclared sp pat).2 = true ∧
      ∃ out, (finish (runDeclared sp pat).1).2 = Except.ok out := by
  obtain ⟨bs, hbs⟩ := tag_input_ok_of_validate pat d hv
  have hstart : start cap pat d = Except.ok
      { safe := cap
        state := cap.tag bs :: List.replicate (W - 1) default
        pos_absorb := 0
        pos_squeeze := 0
        io_count := 0
        iopattern := pat
        domain_sep := d
        output := [] } := by
    unfold start
    rw [hbs]
  refine ⟨_, hstart, ?_, ?_⟩
  · exact (runDeclared_ok pat [] _ rfl rfl).1
  · obtain ⟨_, g2, _⟩ := runDeclared_ok pat []
      ({ safe := cap
         state := cap.tag bs :: List.replicate (W - 1) default
         pos_absorb := 0
         pos_squeeze := 0
         io_count := 0
         iopattern := pat
         domain_sep := d
         output := [] } : Sponge T W) rfl rfl
    rw [finish_ok _ g2]
    exact ⟨_, rfl⟩

/-- The test capability of scenario S1 (tests/sponge.rs): width 7, permute
rotates the state left by one, tag returns zero, add is integer addition
(subtract and equality are the matching integer operations). -/
def rotCap : EncCap Int 7 :=
  { permute := fun st => st.drop 1 ++ st.take 1
    tag := fun _ => 0
    add := fun a b => a + b
    subtract := fun a b => a - b
    is_equal := fun a b => a == b }

/-- Witness for C5: pattern `[Absorb(6), Squeeze(1)]` (scenario S2),
width 7. -/
theorem C5_declared_calls_accepted_witness :
    ∃ sp, start rotCap [Call.Absorb 6, Call.Squeeze 1] 0 = Except.ok sp ∧
      (runDeclared sp [Call.Absorb 6, Call.Squeeze 1]).2 = true ∧
      ∃ out, (finish
        (runDeclared sp [Call.Absorb 6, Call.Squeeze 1]).1).2 =
          Except.ok out :=
  C5_declared_calls_accepted rotCap [Call.Absorb 6, Call.Squeeze 1] 0
    (by norm_num) rfl

/-- The io-pattern of scenario S1 used by C6. -/
def c6pattern : List Call :=
  [Call.Absorb 6, Call.Squeeze 1, Call.Absorb 4, Call.Absorb 4,
   Call.Squeeze 3, Call.Squeeze 4]

/-- The S1 sponge after absorbing `[1,2,3,8,5,6]` and squeezing once:
returns the state and output at that point (`none` on any error). -/
def c6mid : Option (List Int × List Int) :=
  match start rotCap c6pattern 0 with
  | Except.error _ => none
  | Except.ok sp0 =>
    match absorb sp0 6 [1, 2, 3, 8, 5, 6] with
    | (sp1, Except.ok _) =>
      match squeeze sp1 1 with
      | (sp2, Except.ok _) => some (sp2.state, sp2.output)
      | _ => none
    | _ => none

/-- The full S1 run: absorb 6, squeeze 1, twice absorb 4 sixes, squeeze 3,
squeeze 4, then finish. -/
def c6chain : Except Error (List Int) :=
  match start rotCap c6pattern 0 with
  | Except.error e => Except.error e
  | Except.ok sp =>
  match absorb sp 6 [1, 2, 3, 8, 5, 6] with
  | (_, Except.error e) => Except.error e
  | (sp, Except.ok _) =>
  match squeeze sp 1 with
  | (_, Except.error e) => Except.error e
  | (sp, Except.ok _) =>
  match absorb sp 4 [6, 6, 6, 6] with
  | (_, Except.error e) => Except.error e
  | (sp, Except.ok _) =>
  match absorb sp 4 [6, 6, 6, 6] with
  | (_, Except.error e) => Except.error e
  | (sp, Except.ok _) =>
  match squeeze sp 3 with
  | (_, Except.error e) => Except.error e
  | (sp, Except.ok _) =>
  match squeeze sp 4 with
  | (_, Except.error e) => Except.error e
  | (sp, Except.ok _) => (finish sp).2

/-- C6: with width 7, rotate-left permute, zero tag and integer addition,
the sponge on pattern `[A(6), S(1), A(4), A(4), S(3), S(4)]` with domain
separator 0, after absorbing `[1,2,3,8,5,6]`, follows the duplex schedule:
the first `squeeze(1)` triggers exactly one permutation, leaving state
`[1,2,3,8,5,6,0]` and output `[2]`; and after twice `absorb(4, [6,6,6,6])`,
`squeeze(3)` and `squeeze(4)`, `finish` returns
`[2, 20, 11, 12, 6, 1, 8, 11]`. -/
theorem C6_duplex_schedule :
    c6mid = some ([1, 2, 3, 8, 5, 6, 0], [2]) ∧
    c6chain = Except.ok [2, 20, 11, 12, 6, 1, 8, 11] :=
  ⟨rfl, rfl⟩

/-- Witness for C7: concrete sponges hitting all three error conjuncts. -/
theorem C7_pattern_enforcement_errors_witness :
    (absorb
        { safe := rotCap
          state := List.replicate 7 0
          pos_absorb := 0
          pos_squeeze := 0
          io_count := 0
          iopattern := [Call.Absorb 6, Call.Squeeze 1]
          domain_sep := 0
          output := [] } 6 [1, 1, 1, 1]).2 =
      Except.error Error.TooFewInputElements ∧
    (absorb
        { safe := rotCap
          state := List.replicate 7 0
          pos_absorb := 0
          pos_squeeze := 0
          io_count := 0
          iopattern := [Call.Absorb 6, Call.Squeeze 1]
          domain_sep := 0
          output := [] } 4 [1, 1, 1, 1]).2 =
      Except.error Error.IOPatternViolation ∧
    (squeeze
        { safe := rotCap
          state := List.replicate 7 0
          pos_absorb := 0
          pos_squeeze := 0
          io_count := 2
          iopattern := [Call.Absorb 6, Call.Squeeze 1]
          domain_sep := 0
          output := [] } 1).2 =
      Except.error Error.IOPatternViolation :=
  ⟨(C7_pattern_enforcement_errors _ 6 [1, 1, 1, 1]).1 (by decide),
   (C7_pattern_enforcement_errors _ 4 [1, 1, 1, 1]).2.1 (by decide)
     (by decide),
   (C7_pattern_enforcement_errors _ 1 []).2.2 (by decide)⟩

/-- Witness for C8: a squeeze on an exhausted pattern errors and leaves a
zeroized sponge. -/
theorem C8_zeroize_on_error_witness :
    (squeeze
        { safe := rotCap
          state := [5, 6, 7, 8, 9, 10, 11]
          pos_absorb := 3
          pos_squeeze := 2
          io_count := 2
          iopattern := [Call.Absorb 6, Call.Squeeze 1]
          domain_sep := 0
          output := [4] } 1).1.state = List.replicate 7 (0 : Int) ∧
    (squeeze
        { safe := rotCap
          state := [5, 6, 7, 8, 9, 10, 11]
          pos_absorb := 3
          pos_squeeze := 2
          io_count := 2
          iopattern := [Call.Absorb 6, Call.Squeeze 1]
          domain_sep := 0
          output := [4] } 1).1.pos_absorb = 0 ∧
    (squeeze
        { safe := rotCap
          state := [5, 6, 7, 8, 9, 10, 11]
          pos_absorb := 3
          pos_squeeze := 2
          io_count := 2
          iopattern := [Call.Absorb 6, Call.Squeeze 1]
          domain_sep := 0
          output := [4] } 1).1.pos_squeeze = 0 ∧
    (squeeze
        { safe := rotCap
          state := [5, 6, 7, 8, 9, 10, 11]
          pos_absorb := 3
          pos_squeeze := 2
          io_count := 2
          iopattern := [Call.Absorb 6, Call.Squeeze 1]
          domain_sep := 0
          output := [4] } 1).1.output = [] :=
  (C8_zeroize_on_error _ 1 [] Error.IOPatternViolation).2.1 rfl

/-- C9: `decrypt` computes the message length as `cipher.len() - 1` with no
emptiness check, so it is total exactly on non-empty ciphertexts (the
`none` branch models the `usize` underflow on the empty ciphertext), and
for every non-empty ciphertext the subtraction is safe:
`(len - 1) + 1 = len`. -/
theorem C9_decrypt_needs_nonempty_cipher {T : Type} [Inhabited T] {W : Nat}
    (cap : EncCap T W) (d : Nat) (cipher : List T) (S : T × T) (ν : T) :
    (decrypt cap d cipher S ν = none ↔ cipher = []) ∧
    (cipher ≠ [] → cipher.length - 1 + 1 = cipher.length) := by
  constructor
  · cases cipher with
    | nil => simp [decrypt]
    | cons x xs => simp [decrypt]
  · intro h
    have := List.length_pos.2 h
    omega

/-- Witness for C9: the empty and a singleton ciphertext. -/
theorem C9_decrypt_needs_nonempty_cipher_witness :
    decrypt rotCap 0 ([] : List Int) (0, 0) 0 = none ∧
    ([3] : List Int).length - 1 + 1 = ([3] : List Int).length :=
  ⟨(C9_decrypt_needs_nonempty_cipher rotCap 0 [] (0, 0) 0).1.mpr rfl,
   (C9_decrypt_needs_nonempty_cipher rotCap 0 [3] (0, 0) 0).2
     (by decide)⟩

theorem getD_append_length {T : Type} (K : List T) (τ x0 : T) :
    (K ++ [τ]).getD K.length x0 = τ := by
  induction K with
  | nil => rfl
  | cons k ks ih =>
    show (ks ++ [τ]).getD ks.length x0 = τ
    exact ih

theorem zipWith_sub_add {T : Type} (add sub : T → T → T)
    (Hsub : ∀ k m, sub (add k m) k = m) :
    ∀ (K M : List T), K.length = M.length →
      List.zipWith sub (List.zipWith add K M) K = M := by
  intro K
  induction K with
  | nil =>
    intro M hM
    cases M with
    | nil => rfl
    | cons m ms => cases hM
  | cons k ks ih =>
    intro M hM
    cases M with
    | nil => cases hM
    | cons m ms =>
      show sub (add k m) k :: List.zipWith sub (List.zipWith add ks ms) ks
        = m :: ms
      rw [Hsub, ih ms (by simpa using hM)]

theorem validate_io_pattern_enc (n : Nat) (hn : 1 ≤ n) :
    validate_io_pattern (io_pattern n) = Except.ok () := by
  rw [validate_ok_iff]
  refine ⟨⟨2, rfl⟩, ⟨1, rfl⟩, ?_⟩
  intro c hc
  simp [io_pattern] at hc
  rcases hc with h | h | h | h | h <;> subst h <;> simp [Call.call_len]
    <;> omega

theorem absorb_ok_fields {T : Type} [Inhabited T] {W : Nat}
    (sp : Sponge T W) (len : Nat) (input : List T)
    (h1 : len ≤ input.length)
    (h2 : sp.iopattern.get? sp.io_count = some (Call.Absorb len)) :
    ∃ sp', absorb sp len input = (sp', Except.ok ()) ∧
      sp'.safe = sp.safe ∧ sp'.iopattern = sp.iopattern ∧
      sp'.io_count = sp.io_count + 1 ∧ sp'.output = sp.output := by
  refine ⟨_, absorb_ok sp len input h1 h2, ?_, ?_, ?_, ?_⟩
  · show (absorbList sp (input.take len)).safe = sp.safe
    rw [absorbList_safe]
  · show (absorbList sp (input.take len)).iopattern = sp.iopattern
    rw [absorbList_iopattern]
  · show (absorbList sp (input.take len)).io_count + 1 = sp.io_count + 1
    rw [absorbList_io_count]
  · show (absorbList sp (input.take len)).output = sp.output
    rw [absorbList_output]

theorem squeeze_ok_fields {T : Type} [Inhabited T] {W : Nat}
    (sp : Sponge T W) (len : Nat)
    (h2 : sp.iopattern.get? sp.io_count = some (Call.Squeeze len)) :
    ∃ sp' tail, squeeze sp len = (sp', Except.ok ()) ∧
      sp'.safe = sp.safe ∧ sp'.iopattern = sp.iopattern ∧
      sp'.io_count = sp.io_count + 1 ∧
      sp'.output = sp.output ++ tail ∧ tail.length = len := by
  obtain ⟨tail, htail, hlen⟩ := squeezeList_output len sp
  refine ⟨_, tail, squeeze_ok sp len h2, ?_, ?_, ?_, ?_, hlen⟩
  · show (squeezeList sp len).safe = sp.safe
    rw [squeezeList_safe]
  · show (squeezeList sp len).iopattern = sp.iopattern
    rw [squeezeList_iopattern]
  · show (squeezeList sp len).io_count + 1 = sp.io_count + 1
    rw [squeezeList_io_count]
  · show (squeezeList sp len).output = sp.output ++ tail
    exact htail

theorem prepare_sponge_ok {T : Type} [Inhabited T] {W : Nat}
    (cap : EncCap T W) (d n : Nat) (secret : T × T) (ν : T)
    (hn : 1 ≤ n) :
    ∃ sp, prepare_sponge cap d n secret ν = Except.ok sp ∧
      sp.safe = cap ∧ sp.iopattern = io_pattern n ∧ sp.io_count = 3 ∧
      sp.output.length = n := by
  have hv := validate_io_pattern_enc n hn
  obtain ⟨bs, hbs⟩ := tag_input_ok_of_validate (io_pattern n) d hv
  have hstart : start cap (io_pattern n) d = Except.ok
      ({ safe := cap
         state := cap.tag bs :: List.replicate (W - 1) default
         pos_absorb := 0
         pos_squeeze := 0
         io_count := 0
         iopattern := io_pattern n
         domain_sep := d
         output := [] } : Sponge T W) := by
    unfold start
    rw [hbs]
  obtain ⟨sp1, heq1, hsafe1, hpat1, hcount1, hout1⟩ :=
    absorb_ok_fields
      ({ safe := cap
         state := cap.tag bs :: List.replicate (W - 1) default
         pos_absorb := 0
         pos_squeeze := 0
         io_count := 0
         iopattern := io_pattern n
         domain_sep := d
         output := [] } : Sponge T W) 2 [secret.1, secret.2]
      (by simp) rfl
  obtain ⟨sp2, heq2, hsafe2, hpat2, hcount2, hout2⟩ :=
    absorb_ok_fields sp1 1 [ν] (by simp)
      (by rw [hpat1, hcount1]; rfl)
  obtain ⟨sp3, tail, heq3, hsafe3, hpat3, hcount3, hout3, htail⟩ :=
    squeeze_ok_fields sp2 n
      (by rw [hpat2, hcount2, hpat1, hcount1]; rfl)
  refine ⟨sp3, ?_, ?_, ?_, ?_, ?_⟩
  · unfold prepare_sponge
    rw [hstart]
    simp only []
    rw [heq1]
    simp only []
    rw [heq2]
    simp only []
    rw [heq3]
  · rw [hsafe3, hsafe2, hsafe1]
  · rw [hpat3, hpat2, hpat1]
  · rw [hcount3, hcount2, hcount1]
  · rw [hout3, hout2, hout1]
    simpa using htail

/-- C1: for every valid capability (deterministic methods with `subtract`
inverting `add` and reflexive `is_equal`, width at least 2), every domain
separator, every message with at least one element, every two-element
shared secret and every nonce, decrypting the ciphertext produced by
`encrypt` with the same parameters returns `Ok` with the original
message. -/
theorem C1_encrypt_decrypt_round_trip {T : Type} [Inhabited T] {W : Nat}
    (cap : EncCap T W) (d : Nat) (M : List T) (secret : T × T) (ν : T)
    (hW : 2 ≤ W) (hM : 1 ≤ M.length)
    (Hsub : ∀ k m, cap.subtract (cap.add k m) k = m)
    (Heq : ∀ a, cap.is_equal a a = true) :
    ∃ C, encrypt cap d M secret ν = Except.ok C ∧
      decrypt cap d C secret ν = some (Except.ok M) := by
  obtain ⟨sp, hsp, hsafe, hpat, hcount, hlen⟩ :=
    prepare_sponge_ok cap d M.length secret ν hM
  have hget3 : sp.iopattern.get? sp.io_count =
      some (Call.Absorb M.length) := by
    rw [hpat, hcount]
    rfl
  obtain ⟨sp1, heq1, hsafe1, hpat1, hcount1, hout1⟩ :=
    absorb_ok_fields sp M.length M (Nat.le_refl _) hget3
  have hget4 : sp1.iopattern.get? sp1.io_count =
      some (Call.Squeeze 1) := by
    rw [hpat1, hcount1, hpat, hcount]
    rfl
  obtain ⟨sp2, tail, heq2, hsafe2, hpat2, hcount2, hout2, htail⟩ :=
    squeeze_ok_fields sp1 1 hget4
  obtain ⟨τ, hτ⟩ := List.length_eq_one.1 htail
  subst hτ
  have hsafe2c : sp2.safe = cap := by rw [hsafe2, hsafe1, hsafe]
  have hout2c : sp2.output = sp.output ++ [τ] := by rw [hout2, hout1]
  have hcipher : addMessage sp2.safe sp2.output M =
      List.zipWith cap.add sp.output M ++ [τ] := by
    rw [hsafe2c, hout2c]
    unfold addMessage
    rw [List.take_left' hlen, List.drop_left' hlen]
  have hcliplen : (List.zipWith cap.add sp.output M ++ [τ]).length =
      M.length + 1 := by
    simp [hlen]
  have hfin : sp2.io_count = sp2.iopattern.length := by
    rw [hcount2, hcount1, hcount, hpat2, hpat1, hpat]
    rfl
  have henc : encrypt cap d M secret ν =
      Except.ok (List.zipWith cap.add sp.output M ++ [τ]) := by
    unfold encrypt
    simp only [hsp, heq1, heq2, hcipher]
    rw [if_neg (not_not_intro hcliplen), finish_ok sp2 hfin]
  refine ⟨_, henc, ?_⟩
  have hmsg : subtractKeystream sp.safe
      (List.zipWith cap.add sp.output M ++ [τ]) sp.output M.length = M := by
    rw [hsafe]
    unfold subtractKeystream
    rw [List.take_left' (by simp [hlen])]
    rw [List.take_of_length_le (le_of_eq hlen),
      List.drop_of_length_le (le_of_eq hlen), List.append_nil]
    exact zipWith_sub_add cap.add cap.subtract Hsub sp.output M hlen
  have hs : sp2.output.getD M.length default = τ := by
    rw [hout2c, ← hlen]
    exact getD_append_length sp.output τ default
  have hcg : (List.zipWith cap.add sp.output M ++ [τ]).getD M.length
      default = τ := by
    have hzl : (List.zipWith cap.add sp.output M).length = M.length := by
      simp [hlen]
    rw [← hzl]
    exact getD_append_length _ τ default
  unfold decrypt
  rw [hcliplen]
  simp only []
  rw [hsp]
  simp only []
  rw [hmsg]
  rw [heq1]
  simp only []
  rw [heq2]
  simp only []
  rw [hs, hcg, hsafe2c, Heq]
  simp [finish_ok sp2 hfin]

/-- Witness for C1: integers with the rotate capability, message `[5, 17]`,
shared secret `(1, 2)`, nonce `3`, domain separator `9`. -/
theorem C1_encrypt_decrypt_round_trip_witness :
    ∃ C, encrypt rotCap 9 [5, 17] (1, 2) 3 = Except.ok C ∧
      decrypt rotCap 9 C (1, 2) 3 = some (Except.ok [5, 17]) :=
  C1_encrypt_decrypt_round_trip rotCap 9 [5, 17] (1, 2) 3 (by decide)
    (by decide) (fun k m => add_sub_cancel_left k m)
    (fun a => beq_self_eq_true a)
